import Mathlib

/-!
Shallow embedding of `evaluate.js` (audio WER evaluation script): the
chunked audio source (`audioStreamGenerator`), the streaming transcription
driver (`transcribeAudio`), the format inspector / normalizer
(`ensureAudioCompatibility`), the per-file orchestration (`processFiles`)
and the CLI entry (`main`).

External effects (the filesystem, the `ffmpeg` probe/convert tool, the
transcription service stream) are modelled as explicit state and oracle
parameters; machine strings are Lean `String`s manipulated through
character lists so that everything evaluates in the kernel.
-/

namespace AudioWer

/-- Bytes of a file, as a list of naturals (one per byte). -/
abbrev Bytes := List Nat

/-! ### Small string helpers (kernel-friendly replacements for JS string ops) -/

/-- ASCII lower-casing of one character, as `String.prototype.toLowerCase`
acts on ASCII input (file extensions here are ASCII). -/
def lowerChar (c : Char) : Char :=
  if 'A' ≤ c ∧ c ≤ 'Z' then Char.ofNat (c.toNat + 32) else c

/-- ASCII lower-casing of a string. -/
def lowerStr (s : String) : String := ⟨s.data.map lowerChar⟩

/-- Test whether the first list starts with the second. -/
def hasPrefixChars : List Char → List Char → Bool
  | _, [] => true
  | [], _ :: _ => false
  | a :: as, b :: bs => a == b && hasPrefixChars as bs

/-- Test whether the second list occurs contiguously in the first.
Models `String.prototype.includes`. -/
def containsChars : List Char → List Char → Bool
  | hay, pat =>
    if hasPrefixChars hay pat then true
    else match hay with
      | [] => false
      | _ :: t => containsChars t pat

/-- Substring containment on strings (JS `haystack.includes(needle)`). -/
def containsSub (hay pat : String) : Bool := containsChars hay.data pat.data

/-- Trim whitespace from both ends of a string: the behaviour of JS
`String.prototype.trim` on ASCII-whitespace input. -/
def trimBoth (s : String) : String :=
  ⟨((s.data.dropWhile Char.isWhitespace).reverse.dropWhile Char.isWhitespace).reverse⟩

/-- Trim whitespace from the right end only (used to state the spec reading
"trailing whitespace trimmed"). -/
def trimTrailing (s : String) : String :=
  ⟨(s.data.reverse.dropWhile Char.isWhitespace).reverse⟩

/-! ### Chunked audio source: `audioStreamGenerator` (evaluate.js lines 22-27)

`fs.createReadStream(filePath, { highWaterMark: 4096 })` delivers the bytes of the file as consecutive chunks of the nominal size (4096), the last chunk
possibly shorter; each chunk is wrapped as `{ AudioEvent: { AudioChunk } }`.
`chunksOf szPred bytes` splits `bytes` into runs of `szPred + 1` bytes
(`szPred + 1` so the chunk size is positive by construction). -/

def chunksOf (szPred : Nat) : Bytes → List Bytes
  | [] => []
  | b :: bs => (b :: bs).take (szPred + 1) :: chunksOf szPred ((b :: bs).drop (szPred + 1))
termination_by l => l.length
decreasing_by
  simp only [List.length_drop, List.length_cons]
  omega

/-- One outbound event of the audio stream: `{ AudioEvent: { AudioChunk } }`. -/
structure AudioChunkEvent where
  audioChunk : Bytes
deriving Repr, DecidableEq

/-- The chunked audio source applied to the bytes of a file, nominal chunk size
4096 (= 4095 + 1) as in the source. -/
def audioStreamGenerator (bytes : Bytes) : List AudioChunkEvent :=
  (chunksOf 4095 bytes).map AudioChunkEvent.mk

/-! ### Transcription session driver: `transcribeAudio` (evaluate.js lines 29-64) -/

/-- One ranked hypothesis of a result (`Alternatives[i]`). -/
structure TranscriptAlternative where
  transcript : String
deriving Repr, DecidableEq

/-- One result of an inbound transcript event: `IsPartial` tag plus ranked
alternatives. -/
structure TranscriptResult where
  isPartial : Bool
  alternatives : List TranscriptAlternative
deriving Repr, DecidableEq

/-- One inbound event of `TranscriptResultStream`
(`event.TranscriptEvent.Transcript.Results`). -/
structure TranscriptEvent where
  results : List TranscriptResult
deriving Repr, DecidableEq

/-- Processing of one result inside the accumulation loop:
final (non-partial) results append `Alternatives[0].Transcript + " "`;
accessing `Alternatives[0]` of an empty list throws a `TypeError`
(modelled by `none`), which the catch of the driver turns into a `null`
return. `none` is absorbing. -/
def accumStep (acc : Option String) (r : TranscriptResult) : Option String :=
  match acc with
  | none => none
  | some s =>
    if r.isPartial then some s
    else
      match r.alternatives with
      | [] => none
      | a :: _ => some (s ++ a.transcript ++ " ")

/-- The fold of the transcription session driver over the inbound event stream.
`streamErrored = true` models the `for await` loop (or the service call)
throwing: the `catch` then returns `null` (`none`). On a clean stream the
accumulated string is returned trimmed (`transcript.trim()`). -/
def transcribeAudio (events : List TranscriptEvent) (streamErrored : Bool) :
    Option String :=
  if streamErrored then none
  else
    match ((events.map TranscriptEvent.results).flatten).foldl accumStep (some ("")) with
    | none => none
    | some s => some (trimBoth s)

/-- The first-alternative text of each final-tagged result of a result
list, in order. -/
def finalTextsR (rs : List TranscriptResult) : List String :=
  rs.filterMap fun r =>
    if r.isPartial then none
    else (r.alternatives.head?).map TranscriptAlternative.transcript

/-- The first-alternative text of each final-tagged result, in stream
order (what the spec says the driver accumulates). -/
def finalTexts (events : List TranscriptEvent) : List String :=
  finalTextsR ((events.map TranscriptEvent.results).flatten)

/-- Concatenation of a list of texts, each followed by a single space
(the join operation in the words of the spec). -/
def spaceJoined (ts : List String) : String :=
  match ts with
  | [] => ""
  | t :: rest => t ++ " " ++ spaceJoined rest

/-- The event sequence of the spec example: partial a, final hello,
partial b, final world. -/
def exampleEvents : List TranscriptEvent :=
  [⟨[⟨true, [⟨("a")⟩]⟩]⟩, ⟨[⟨false, [⟨("hello")⟩]⟩]⟩,
   ⟨[⟨true, [⟨("b")⟩]⟩]⟩, ⟨[⟨false, [⟨("world")⟩]⟩]⟩]

/-! ### Filesystem model and `ensureAudioCompatibility` (evaluate.js lines 141-190)

A path is modelled structurally as directory + base name + raw extension
(without the dot), matching what `path.dirname` / `path.basename` /
`path.extname(..).slice(1)` extract; `path.extname` never puts a dot in
the extension, so this is in bijection with the path strings the function
builds. The filesystem is an association list of files plus the set of
existing directories. -/

/-- A structured file path: `dir ++ "/" ++ base ++ "." ++ extRaw`. -/
structure JsPath where
  dir : String
  base : String
  extRaw : String
deriving Repr, DecidableEq

/-- Filesystem state: files with their bytes, and the existing directories. -/
structure FsState where
  files : List (JsPath × Bytes)
  dirs : List String
deriving Repr, DecidableEq

/-- Look a file up by path. -/
def lookupFile (fs : List (JsPath × Bytes)) (p : JsPath) : Option Bytes :=
  match fs with
  | [] => none
  | (q, b) :: rest => if q = p then some b else lookupFile rest p

/-- Remove a file (no-op when absent). -/
def eraseFile (fs : List (JsPath × Bytes)) (p : JsPath) : List (JsPath × Bytes) :=
  match fs with
  | [] => []
  | (q, b) :: rest => if q = p then eraseFile rest p else (q, b) :: eraseFile rest p

/-- Create or overwrite a file. -/
def setFile (fs : List (JsPath × Bytes)) (p : JsPath) (b : Bytes) :
    List (JsPath × Bytes) :=
  (p, b) :: eraseFile fs p

/-- Outcomes of the two external `ffmpeg` invocations made for one input
file. `probe = none`: the probe command (`ffmpeg -i file -f null -`) threw;
`probe = some out`: it returned combined output `out`. `convert = none`:
the conversion command threw; `convert = some b`: it succeeded and wrote
bytes `b` to its output path. -/
structure ConvEnv where
  probe : Option String
  convert : Option Bytes
deriving Repr, DecidableEq

/-- The probe-output compatibility test of evaluate.js lines 156-160:
the conjunction of the three
substring tests on the probe output: pcm_s16le, 16000 Hz, and mono. -/
def probeMatches (out : String) : Bool :=
  containsSub out ("pcm_s16le") && containsSub out ("16000 Hz") && containsSub out ("mono")

/-- The conversion/archive/rename tail of `ensureAudioCompatibility`
(evaluate.js lines 166-185): create the archive directory if absent, run
the conversion (its output path overwrites any existing file there, due to
the `-y` flag), `renameSync` the original into the archive directory, and
`renameSync` the converted file onto the target path. A `renameSync` whose
source file does not exist throws, landing in the `catch` of the caller,
which returns `null`. -/
def normalizeStage (env : ConvEnv) (st : FsState) (p convertedPath : JsPath)
    (olderDir : String) : Option JsPath × FsState :=
  let st1 : FsState :=
    if st.dirs.contains olderDir then st else { st with dirs := olderDir :: st.dirs }
  match env.convert with
  | none => (none, st1)
  | some convBytes =>
    let st2 : FsState := { st1 with files := setFile st1.files convertedPath convBytes }
    match lookupFile st2.files p with
    | none => (none, st2)
    | some origBytes =>
      let movedPath : JsPath := ⟨olderDir, p.base, p.extRaw⟩
      let st3 : FsState :=
        { st2 with files := setFile (eraseFile st2.files p) movedPath origBytes }
      match lookupFile st3.files convertedPath with
      | none => (none, st3)
      | some convBytes2 =>
        let st4 : FsState :=
          { st3 with
            files := setFile (eraseFile st3.files convertedPath) convertedPath convBytes2 }
        (some convertedPath, st4)

/-- Model of `ensureAudioCompatibility(inputPath)`, evaluate.js lines
141-190, as a state transformer: returns the JS return value (`none`
models `null`) and the filesystem after the call.

Steps, in source order: for a (lower-cased) `wav` extension run the probe
(a thrown probe lands in the `catch`, returning `null`); a matching probe
returns the input path unchanged; every other input goes through
`normalizeStage` with conversion target `dir/base.wav` and archive
directory `dir/older`. -/
def ensureAudioCompatibility (env : ConvEnv) (st : FsState) (p : JsPath) :
    Option JsPath × FsState :=
  let ext := lowerStr p.extRaw
  let convertedPath : JsPath := ⟨p.dir, p.base, "wav"⟩
  let olderDir := p.dir ++ "/older"
  if ext = "wav" then
    match env.probe with
    | none => (none, st)
    | some out =>
      if probeMatches out then (some p, st)
      else
        normalizeStage env st p convertedPath olderDir
  else
    normalizeStage env st p convertedPath olderDir

/-- The format-inspector reading of lines 150-164: an input counts as
already compatible ("Conforming") exactly when its lower-cased extension is
`wav` and the probe ran and its output passes `probeMatches`. -/
def inspectConforming (p : JsPath) (probe : Option String) : Bool :=
  if lowerStr p.extRaw = "wav" then
    match probe with
    | none => false
    | some out => probeMatches out
  else false

/-! ### Per-file orchestration: `processFiles` (evaluate.js lines 84-139) -/

/-- Per-file oracle inputs for one iteration of the `processFiles` loop:
whether `ensureAudioCompatibility` returned a usable path, the inbound
transcript stream for the file, whether the reference file exists, and
what `calculateMetrics` returned (`none` models `null`). -/
structure FileEnv where
  convOk : Bool
  events : List TranscriptEvent
  streamErrored : Bool
  refExists : Bool
  metricsOutput : Option String
deriving Repr, DecidableEq

/-- Observable outcome of one iteration of the loop body. -/
structure FileOutcome where
  /-- Transcript written to `output/<base>.txt`, when one was written. -/
  wroteOutput : Option String
  /-- The `Warning: Reference file not found` branch was taken. -/
  warnedMissingRef : Bool
  /-- `calculateMetrics` was invoked. -/
  metricsInvoked : Bool
  /-- Block appended to `results.txt`, when one was. -/
  resultsEntry : Option String
  /-- `Skipping file due to conversion error` was logged. -/
  loggedConversionSkip : Bool
  /-- `Failed to transcribe` was logged. -/
  loggedTranscribeFailure : Bool
  /-- `Failed to calculate metrics` was logged. -/
  loggedMetricsFailure : Bool
deriving Repr, DecidableEq

/-- The all-fields-inactive outcome. -/
def FileOutcome.none0 : FileOutcome :=
  ⟨none, false, false, none, false, false, false⟩

/-- One iteration of the `processFiles` loop body (lines 96-136) for the
file with base name `baseName`. JS truthiness of `transcript` makes both
`null` and the empty string take the `Failed to transcribe` branch. -/
def processOne (env : FileEnv) (baseName : String) : FileOutcome :=
  if ¬ env.convOk then
    { FileOutcome.none0 with loggedConversionSkip := true }
  else
    match transcribeAudio env.events env.streamErrored with
    | none => { FileOutcome.none0 with loggedTranscribeFailure := true }
    | some t =>
      if t = "" then { FileOutcome.none0 with loggedTranscribeFailure := true }
      else if ¬ env.refExists then
        { FileOutcome.none0 with wroteOutput := some t, warnedMissingRef := true }
      else
        match env.metricsOutput with
        | some evalOut =>
          { FileOutcome.none0 with
            wroteOutput := some t
            metricsInvoked := true
            resultsEntry := some ("File: " ++ baseName ++ "\n" ++ evalOut ++ "\n") }
        | none =>
          { FileOutcome.none0 with
            wroteOutput := some t
            metricsInvoked := true
            loggedMetricsFailure := true }

/-- The whole loop: every supported file is processed in order; per-file
errors only shape the outcome of that file (`continue` / `try-catch` around the
body), so the loop never stops early. -/
def processFiles (files : List (FileEnv × String)) : List FileOutcome :=
  match files with
  | [] => []
  | (env, baseName) :: rest => processOne env baseName :: processFiles rest

/-! ### CLI entry: `main` (evaluate.js lines 192-220) -/

/-- CLI environment: existence of (resolved) directories and `path.resolve`. -/
structure CliEnv where
  dirExists : String → Bool
  resolve : String → String

/-- Model of the `main` entry point: returns the process exit code together with the per-file
outcomes of the run (empty when the run aborted). `process.argv[2]` /
`process.argv[3]` are `Option String`s; JS truthiness (`!audioDir`) makes
a missing argument and an empty-string argument both fail the usage check.
The per-file loop inputs are the `fileEnvs` oracle (one entry per
supported file of the audio directory, in directory order). -/
def main (cli : CliEnv) (audioDirArg referenceDirArg : Option String)
    (fileEnvs : List (FileEnv × String)) : Nat × List FileOutcome :=
  match audioDirArg, referenceDirArg with
  | some audioDir, some referenceDir =>
    if audioDir = "" ∨ referenceDir = "" then (1, [])
    else if ¬ cli.dirExists (cli.resolve audioDir) ∨
            ¬ cli.dirExists (cli.resolve referenceDir) then (1, [])
    else (0, processFiles fileEnvs)
  | _, _ => (1, [])

/-! ### Lemmas about the chunked audio source -/

theorem chunksOf_flatten (k : Nat) (l : Bytes) : (chunksOf k l).flatten = l := by
  induction l using chunksOf.induct k with
  | case1 => simp [chunksOf]
  | case2 b bs ih =>
    rw [chunksOf]
    simp only [List.flatten_cons, ih, List.take_append_drop]

theorem chunksOf_eq_nil_iff (k : Nat) (l : Bytes) : chunksOf k l = [] ↔ l = [] := by
  cases l with
  | nil => simp [chunksOf]
  | cons b bs => rw [chunksOf]; simp

theorem chunksOf_length_le (k : Nat) (l : Bytes) :
    ∀ c ∈ chunksOf k l, 0 < c.length ∧ c.length ≤ k + 1 := by
  induction l using chunksOf.induct k with
  | case1 => simp [chunksOf]
  | case2 b bs ih =>
    rw [chunksOf]
    intro c hc
    rcases List.mem_cons.mp hc with h | h
    · subst h
      constructor
      · simp
      · simp [List.length_take]
    · exact ih c h

theorem chunksOf_dropLast_length (k : Nat) (l : Bytes) :
    ∀ c ∈ (chunksOf k l).dropLast, c.length = k + 1 := by
  induction l using chunksOf.induct k with
  | case1 => simp [chunksOf]
  | case2 b bs ih =>
    rw [chunksOf]
    by_cases hd : (b :: bs).drop (k + 1) = []
    · rw [hd]
      simp [chunksOf]
    · have hne : chunksOf k ((b :: bs).drop (k + 1)) ≠ [] := by
        simpa [chunksOf_eq_nil_iff] using hd
      rw [List.dropLast_cons_of_ne_nil hne]
      intro c hc
      rcases List.mem_cons.mp hc with h | h
      · subst h
        have hlen : k + 1 ≤ (b :: bs).length := by
          by_contra hle
          exact hd (List.drop_eq_nil_of_le (by omega))
        rw [List.length_take]
        exact Nat.min_eq_left hlen
      · exact ih c h

/-- C7: for a file of any size, the chunked audio source yields finitely
many chunks whose in-order concatenation is exactly the bytes of the file
(no reordering, drops or duplication); every chunk except possibly the
last has the nominal chunk size, and every chunk (the last included) is
nonempty and at most nominal-sized. Stated for every positive nominal
size `szPred + 1`, and instantiated at the nominal size 4096 of
`audioStreamGenerator`. -/
theorem chunk_source_reconstructs (szPred : Nat) (bytes : Bytes) :
    (chunksOf szPred bytes).flatten = bytes
      ∧ (∀ c ∈ (chunksOf szPred bytes).dropLast, c.length = szPred + 1)
      ∧ (∀ c ∈ chunksOf szPred bytes, 0 < c.length ∧ c.length ≤ szPred + 1)
      ∧ ((audioStreamGenerator bytes).map AudioChunkEvent.audioChunk).flatten = bytes := by
  refine ⟨chunksOf_flatten szPred bytes, chunksOf_dropLast_length szPred bytes,
    chunksOf_length_le szPred bytes, ?_⟩
  have hmap : ((chunksOf 4095 bytes).map AudioChunkEvent.mk).map AudioChunkEvent.audioChunk
      = chunksOf 4095 bytes := by
    rw [List.map_map]
    exact List.map_id'' (fun _ => rfl) _
  rw [audioStreamGenerator, hmap]
  exact chunksOf_flatten 4095 bytes

/-- Closed instance of `chunk_source_reconstructs` at chunk size 2 on a
five-byte file. -/
theorem chunk_source_reconstructs_witness :
    (chunksOf 1 ([10, 20, 30, 40, 50] : Bytes)).flatten = [10, 20, 30, 40, 50] :=
  (chunk_source_reconstructs 1 [10, 20, 30, 40, 50]).1

/-! ### Lemmas about the transcription session driver -/

theorem foldl_accumStep (rs : List TranscriptResult)
    (h : ∀ r ∈ rs, r.isPartial = false → r.alternatives ≠ []) (s : String) :
    rs.foldl accumStep (some s) = some (s ++ spaceJoined (finalTextsR rs)) := by
  induction rs generalizing s with
  | nil => simp [finalTextsR, spaceJoined]
  | cons r rs ih =>
    have hrest : ∀ r ∈ rs, r.isPartial = false → r.alternatives ≠ [] := by
      intro x hx
      exact h x (List.mem_cons_of_mem r hx)
    cases hp : r.isPartial with
    | true =>
      rw [List.foldl_cons]
      have hstep : accumStep (some s) r = some s := by
        simp [accumStep, hp]
      rw [hstep, ih hrest]
      simp [finalTextsR, hp]
    | false =>
      cases halt : r.alternatives with
      | nil => exact absurd halt (h r (List.mem_cons_self r rs) hp)
      | cons a rest =>
        rw [List.foldl_cons]
        have hstep : accumStep (some s) r = some (s ++ a.transcript ++ " ") := by
          simp [accumStep, hp, halt]
        rw [hstep, ih hrest]
        have hft : finalTextsR (r :: rs) = a.transcript :: finalTextsR rs := by
          simp [finalTextsR, hp, halt]
        rw [hft, spaceJoined]
        simp [String.append_assoc]

/-- C5 (amended): on an event stream consumed without error, the driver
returns exactly the concatenation, in event order, of the first-alternative
text of each final-tagged result, each followed by a single space, with
whitespace trimmed from BOTH ends at the end (the source calls
`String.prototype.trim`, which strips leading whitespace too); partial
results contribute nothing. The hypothesis says consumption raises no
error: every final result carries at least one alternative. -/
theorem transcript_is_trimmed_join (events : List TranscriptEvent)
    (h : ∀ r ∈ (events.map TranscriptEvent.results).flatten,
      r.isPartial = false → r.alternatives ≠ []) :
    transcribeAudio events false = some (trimBoth (spaceJoined (finalTexts events))) := by
  rw [transcribeAudio]
  simp only [if_neg (by simp : ¬ (false = true))]
  rw [foldl_accumStep _ h]
  simp [finalTexts]

/-- Closed instance of `transcript_is_trimmed_join` on the spec example,
which yields exactly "hello world". -/
theorem transcript_is_trimmed_join_witness :
    transcribeAudio exampleEvents false = some ("hello world") :=
  (transcript_is_trimmed_join exampleEvents (by decide)).trans (by decide)

/-- C5 as stated fails: with a single final result whose text " hi"
begins with a space, the driver returns "hi" (JS `trim` strips both
ends), while the trailing-whitespace-only reading of the claim demands
" hi". -/
theorem transcript_trailing_trim_counterexample :
    transcribeAudio [⟨[⟨false, [⟨(" hi")⟩]⟩]⟩] false = some ("hi")
      ∧ trimTrailing (spaceJoined (finalTexts [⟨[⟨false, [⟨(" hi")⟩]⟩]⟩])) = (" hi")
      ∧ some ("hi") ≠ some (" hi") := by
  refine ⟨by decide, by decide, by decide⟩

/-- C6: when the inbound event stream terminates with an error (here:
before any final-tagged result was consumed), the driver returns an error
(`none`), never an empty-string transcript. -/
theorem error_stream_returns_error (events : List TranscriptEvent)
    (_h : ∀ r ∈ (events.map TranscriptEvent.results).flatten, r.isPartial = true) :
    transcribeAudio events true = none ∧ transcribeAudio events true ≠ some ("") := by
  constructor
  · simp [transcribeAudio]
  · simp [transcribeAudio]

/-- Closed instance of `error_stream_returns_error` on an all-partial
prefix. -/
theorem error_stream_returns_error_witness :
    transcribeAudio [⟨[⟨true, [⟨("a")⟩]⟩]⟩] true = none :=
  (error_stream_returns_error [⟨[⟨true, [⟨("a")⟩]⟩]⟩] (by decide)).1

theorem lookupFile_set_self (fs : List (JsPath × Bytes)) (p : JsPath) (b : Bytes) :
    lookupFile (setFile fs p b) p = some b := by
  simp [setFile, lookupFile]

theorem lookupFile_erase (fs : List (JsPath × Bytes)) (p q : JsPath) (h : q ≠ p) :
    lookupFile (eraseFile fs p) q = lookupFile fs q := by
  induction fs with
  | nil => rfl
  | cons e rest ih =>
    obtain ⟨e1, e2⟩ := e
    by_cases he : e1 = p
    · rw [eraseFile]
      simp only [if_pos he, ih]
      rw [lookupFile]
      rw [if_neg (by rw [he]; exact fun hq => h hq.symm)]
    · rw [eraseFile]
      simp only [if_neg he]
      rw [lookupFile, lookupFile]
      by_cases hq : e1 = q
      · rw [if_pos hq, if_pos hq]
      · rw [if_neg hq, if_neg hq, ih]

theorem lookupFile_erase_self (fs : List (JsPath × Bytes)) (p : JsPath) :
    lookupFile (eraseFile fs p) p = none := by
  induction fs with
  | nil => rfl
  | cons e rest ih =>
    obtain ⟨e1, e2⟩ := e
    by_cases he : e1 = p
    · rw [eraseFile]; simp only [if_pos he, ih]
    · rw [eraseFile]
      simp only [if_neg he]
      rw [lookupFile, if_neg he, ih]

theorem lookupFile_set_ne (fs : List (JsPath × Bytes)) (p q : JsPath) (b : Bytes)
    (h : q ≠ p) : lookupFile (setFile fs p b) q = lookupFile fs q := by
  rw [setFile, lookupFile, if_neg (fun hq => h hq.symm), lookupFile_erase fs p q h]

theorem data_append (s t : String) : (s ++ t).data = s.data ++ t.data := rfl

theorem append_older_ne (s : String) : ¬ (s ++ "/older" = s) := by
  intro h
  have h2 := congrArg List.length (congrArg String.data h)
  rw [data_append, List.length_append] at h2
  have hlen : ("/older" : String).data.length = 6 := rfl
  omega

theorem st1_files (st : FsState) (olderDir : String) :
    ((if st.dirs.contains olderDir then st
      else { st with dirs := olderDir :: st.dirs }) : FsState).files = st.files := by
  split <;> rfl

theorem normalizeStage_convert_none (env : ConvEnv) (st : FsState) (p cp : JsPath)
    (od : String) (h : env.convert = none) :
    (normalizeStage env st p cp od).1 = none
      ∧ (normalizeStage env st p cp od).2.files = st.files := by
  rw [normalizeStage, h]
  exact ⟨rfl, st1_files st od⟩

theorem normalizeStage_completes (env : ConvEnv) (st : FsState) (p : JsPath)
    (cb origBytes : Bytes)
    (hconv : env.convert = some cb)
    (hlk : lookupFile st.files p = some origBytes)
    (hext : p.extRaw ≠ "wav") :
    (normalizeStage env st p ⟨p.dir, p.base, "wav"⟩ (p.dir ++ "/older")).1
        = some ⟨p.dir, p.base, "wav"⟩
      ∧ lookupFile (normalizeStage env st p ⟨p.dir, p.base, "wav"⟩ (p.dir ++ "/older")).2.files
          ⟨p.dir ++ "/older", p.base, p.extRaw⟩ = some origBytes
      ∧ lookupFile (normalizeStage env st p ⟨p.dir, p.base, "wav"⟩ (p.dir ++ "/older")).2.files
          ⟨p.dir, p.base, "wav"⟩ = some cb := by
  obtain ⟨d, b0, e⟩ := p
  simp only at hext hlk ⊢
  have hne1 : ¬ ((⟨d, b0, "wav"⟩ : JsPath) = ⟨d, b0, e⟩) :=
    fun h => hext (congrArg JsPath.extRaw h).symm
  have hne2 : ¬ ((⟨d ++ "/older", b0, e⟩ : JsPath) = ⟨d, b0, "wav"⟩) :=
    fun h => append_older_ne d (congrArg JsPath.dir h)
  have hne3 : ¬ ((⟨d, b0, "wav"⟩ : JsPath) = ⟨d ++ "/older", b0, e⟩) := fun h => hne2 h.symm
  rw [normalizeStage, hconv]
  simp only [st1_files]
  rw [lookupFile_set_ne st.files ⟨d, b0, "wav"⟩ ⟨d, b0, e⟩ cb (fun h => hne1 h.symm)]
  rw [hlk]
  simp only []
  rw [lookupFile_set_ne _ ⟨d ++ "/older", b0, e⟩ ⟨d, b0, "wav"⟩ origBytes hne3]
  rw [lookupFile_erase _ ⟨d, b0, e⟩ ⟨d, b0, "wav"⟩ hne1]
  rw [lookupFile_set_self st.files ⟨d, b0, "wav"⟩ cb]
  simp only []
  refine ⟨by trivial, ?_, ?_⟩
  · rw [lookupFile_set_ne _ ⟨d, b0, "wav"⟩ ⟨d ++ "/older", b0, e⟩ cb hne2]
    rw [lookupFile_erase _ ⟨d, b0, "wav"⟩ ⟨d ++ "/older", b0, e⟩ hne2]
    rw [lookupFile_set_self]
  · rw [lookupFile_set_self]

theorem normalizeStage_wav_none (env : ConvEnv) (st : FsState) (p : JsPath)
    (hext : p.extRaw = "wav") :
    (normalizeStage env st p ⟨p.dir, p.base, "wav"⟩ (p.dir ++ "/older")).1 = none := by
  obtain ⟨d, b0, e⟩ := p
  simp only at hext ⊢
  subst hext
  have hne2 : ¬ ((⟨d ++ "/older", b0, "wav"⟩ : JsPath) = ⟨d, b0, "wav"⟩) :=
    fun h => append_older_ne d (congrArg JsPath.dir h)
  cases hconv : env.convert with
  | none => rw [normalizeStage, hconv]
  | some cb =>
    rw [normalizeStage, hconv]
    simp only [st1_files]
    rw [lookupFile_set_self st.files ⟨d, b0, "wav"⟩ cb]
    simp only []
    rw [lookupFile_set_ne _ ⟨d ++ "/older", b0, "wav"⟩ ⟨d, b0, "wav"⟩ cb (fun h => hne2 h.symm)]
    rw [lookupFile_erase_self]

theorem normalizeStage_fst (env : ConvEnv) (st : FsState) (p cp : JsPath) (od : String) :
    (normalizeStage env st p cp od).1 = none ∨ (normalizeStage env st p cp od).1 = some cp := by
  cases hconv : env.convert with
  | none => left; rw [normalizeStage, hconv]
  | some cb =>
    rw [normalizeStage, hconv]
    simp only [st1_files]
    cases hl1 : lookupFile (setFile st.files cp cb) p with
    | none => left; rfl
    | some ob =>
      simp only []
      cases hl2 : lookupFile
          (setFile (eraseFile (setFile st.files cp cb) p) ⟨od, p.base, p.extRaw⟩ ob) cp with
      | none => left; rfl
      | some cb2 => right; rfl

theorem lowerStr_wav_eq : lowerStr ("wav") = ("wav") := by decide

theorem lowerStr_wav_of_ext (p : JsPath) (h : p.extRaw = "wav") :
    lowerStr p.extRaw = "wav" := by rw [h]; exact lowerStr_wav_eq

theorem wavPath_ne_of_ext (p : JsPath) (h : p.extRaw ≠ "wav") :
    (⟨p.dir, p.base, "wav"⟩ : JsPath) ≠ p := by
  intro he
  exact h (congrArg JsPath.extRaw he).symm

theorem ensure_probe_error (env : ConvEnv) (st : FsState) (p : JsPath)
    (hw : lowerStr p.extRaw = "wav") (hpr : env.probe = none) :
    ensureAudioCompatibility env st p = (none, st) := by
  rw [ensureAudioCompatibility, if_pos hw, hpr]

theorem ensure_conforming (env : ConvEnv) (st : FsState) (p : JsPath) (out : String)
    (hw : lowerStr p.extRaw = "wav") (hpr : env.probe = some out)
    (hm : probeMatches out = true) :
    ensureAudioCompatibility env st p = (some p, st) := by
  rw [ensureAudioCompatibility, if_pos hw, hpr]
  simp only []
  rw [if_pos hm]

theorem ensure_to_normalize (env : ConvEnv) (st : FsState) (p : JsPath)
    (hni : inspectConforming p env.probe = false)
    (hpr : lowerStr p.extRaw = "wav" → env.probe ≠ none) :
    ensureAudioCompatibility env st p
      = normalizeStage env st p ⟨p.dir, p.base, "wav"⟩ (p.dir ++ "/older") := by
  by_cases hw : lowerStr p.extRaw = "wav"
  · cases hpo : env.probe with
    | none => exact absurd hpo (hpr hw)
    | some out =>
      have hm : probeMatches out = false := by
        rw [inspectConforming.eq_def, if_pos hw, hpo] at hni
        exact hni
      rw [ensureAudioCompatibility, if_pos hw, hpo]
      simp only []
      rw [if_neg (by rw [hm]; exact Bool.false_ne_true)]
  · rw [ensureAudioCompatibility, if_neg hw]

theorem ensure_nonwav_eq (env : ConvEnv) (st : FsState) (p : JsPath)
    (hw : ¬ (lowerStr p.extRaw = "wav")) :
    ensureAudioCompatibility env st p
      = normalizeStage env st p ⟨p.dir, p.base, "wav"⟩ (p.dir ++ "/older") := by
  rw [ensureAudioCompatibility, if_neg hw]

theorem ensure_some_p_iff (env : ConvEnv) (st : FsState) (p : JsPath) :
    ((ensureAudioCompatibility env st p).1 = some p
        ↔ inspectConforming p env.probe = true)
      ∧ ((ensureAudioCompatibility env st p).1 = some p →
          ensureAudioCompatibility env st p = (some p, st)) := by
  by_cases hw : lowerStr p.extRaw = "wav"
  · cases hpo : env.probe with
    | none =>
      rw [ensure_probe_error env st p hw hpo]
      rw [inspectConforming.eq_def, if_pos hw]
      exact ⟨⟨fun h => Option.noConfusion h, fun h => Bool.noConfusion h⟩,
        fun h => Option.noConfusion h⟩
    | some out =>
      by_cases hm : probeMatches out = true
      · rw [ensure_conforming env st p out hw hpo hm]
        rw [inspectConforming.eq_def, if_pos hw]
        refine ⟨⟨fun _ => hm, fun _ => rfl⟩, fun _ => rfl⟩
      · have hm' : probeMatches out = false := by
          cases h2 : probeMatches out
          · rfl
          · exact absurd h2 hm
        have he := ensure_to_normalize env st p
          (by rw [inspectConforming.eq_def, if_pos hw, hpo]; exact hm')
          (fun _ h => by rw [hpo] at h; cases h)
        rw [he, inspectConforming.eq_def, if_pos hw]
        have hnone : (normalizeStage env st p ⟨p.dir, p.base, "wav"⟩ (p.dir ++ "/older")).1
            ≠ some p := by
          by_cases hex : p.extRaw = "wav"
          · rw [normalizeStage_wav_none env st p hex]
            exact fun h => by cases h
          · rcases normalizeStage_fst env st p ⟨p.dir, p.base, "wav"⟩ (p.dir ++ "/older")
              with hz | hs
            · rw [hz]; exact fun h => by cases h
            · rw [hs]
              intro h
              exact wavPath_ne_of_ext p hex (Option.some.inj h)
        refine ⟨⟨fun h => absurd h hnone,
          fun h => absurd (hm'.symm.trans h) Bool.false_ne_true⟩, fun h => absurd h hnone⟩
  · have he := ensure_nonwav_eq env st p hw
    have hex : p.extRaw ≠ "wav" := fun h => hw (lowerStr_wav_of_ext p h)
    rw [he, inspectConforming.eq_def, if_neg hw]
    have hnone : (normalizeStage env st p ⟨p.dir, p.base, "wav"⟩ (p.dir ++ "/older")).1
        ≠ some p := by
      rcases normalizeStage_fst env st p ⟨p.dir, p.base, "wav"⟩ (p.dir ++ "/older")
          with hz | hs
      · rw [hz]; exact fun h => by cases h
      · rw [hs]
        intro h
        exact wavPath_ne_of_ext p hex (Option.some.inj h)
    exact ⟨⟨fun h => absurd h hnone, fun h => Bool.noConfusion h⟩,
      fun h => absurd h hnone⟩

/-- C1 (amended): for an input on which the normalizer (not the conforming
early return) runs, if the raw extension is not exactly wav and the call
returns a path, then that path is the original directory and base name
with the wav extension, the archive directory older/ holds a file with the
exact original bytes, and the returned file holds bytes produced by the
conversion tool (hence target-encoded whenever the tool honours its
mono/16 kHz/pcm_s16le flags). For an input whose raw extension IS wav, the
conversion target collides with the input path, so normalization always
returns an error instead of completing. -/
theorem normalize_archives_original (env : ConvEnv) (st : FsState) (p : JsPath)
    (origBytes : Bytes) (targetEncoded : Bytes → Prop)
    (hlk : lookupFile st.files p = some origBytes)
    (henc : ∀ b, env.convert = some b → targetEncoded b)
    (hni : inspectConforming p env.probe = false) :
    (p.extRaw ≠ "wav" →
      ∀ q st2, ensureAudioCompatibility env st p = (some q, st2) →
        q = ⟨p.dir, p.base, "wav"⟩
          ∧ lookupFile st2.files ⟨p.dir ++ "/older", p.base, p.extRaw⟩ = some origBytes
          ∧ ∃ cb, lookupFile st2.files ⟨p.dir, p.base, "wav"⟩ = some cb ∧ targetEncoded cb)
      ∧ (p.extRaw = "wav" → (ensureAudioCompatibility env st p).1 = none) := by
  constructor
  · intro hex q st2 heq
    have hprobe : lowerStr p.extRaw = "wav" → env.probe ≠ none := by
      intro hw hpo
      rw [ensure_probe_error env st p hw hpo] at heq
      exact Option.noConfusion (congrArg Prod.fst heq)
    have he := ensure_to_normalize env st p hni hprobe
    rw [he] at heq
    cases hc : env.convert with
    | none =>
      have hz := (normalizeStage_convert_none env st p ⟨p.dir, p.base, "wav"⟩
        (p.dir ++ "/older") hc).1
      rw [heq] at hz
      exact Option.noConfusion hz
    | some cb =>
      obtain ⟨h1, h2, h3⟩ := normalizeStage_completes env st p cb origBytes hc hlk hex
      rw [heq] at h1 h2 h3
      have hq : q = ⟨p.dir, p.base, "wav"⟩ := Option.some.inj h1
      exact ⟨hq, h2, cb, h3, henc cb hc⟩
  · intro hex
    have hw := lowerStr_wav_of_ext p hex
    cases hpo : env.probe with
    | none => rw [ensure_probe_error env st p hw hpo]
    | some out =>
      have he := ensure_to_normalize env st p hni (fun _ h => by rw [hpo] at h; cases h)
      rw [he]
      exact normalizeStage_wav_none env st p hex

theorem normalize_archives_original_witness :
    lookupFile (ensureAudioCompatibility ⟨none, some [9]⟩
        ⟨[(⟨"d", "a", "mp3"⟩, [1, 2, 3])], ["d"]⟩ ⟨"d", "a", "mp3"⟩).2.files
      ⟨"d" ++ "/older", "a", "mp3"⟩ = some [1, 2, 3] := by
  have heq : ensureAudioCompatibility ⟨none, some [9]⟩
      ⟨[(⟨"d", "a", "mp3"⟩, [1, 2, 3])], ["d"]⟩ ⟨"d", "a", "mp3"⟩
      = (some ⟨"d", "a", "wav"⟩,
          ⟨[(⟨"d", "a", "wav"⟩, [9]), (⟨"d/older", "a", "mp3"⟩, [1, 2, 3])],
            ["d/older", "d"]⟩) := by decide
  have h := (normalize_archives_original ⟨none, some [9]⟩
      ⟨[(⟨"d", "a", "mp3"⟩, [1, 2, 3])], ["d"]⟩ ⟨"d", "a", "mp3"⟩ [1, 2, 3]
      (fun b => b = [9]) (by decide) (fun b hb => (Option.some.inj hb).symm)
      (by decide)).1 (by decide) ⟨"d", "a", "wav"⟩ _ heq
  rw [heq]
  exact h.2.1

/-- C1 fails as stated: a lowercase .wav input whose probe does not match
is claimed to complete normalization with the original bytes archived; in
fact the conversion output path equals the input path, the original bytes
[1, 2, 3] are overwritten before archiving, the second rename throws, the
call returns an error, and no file anywhere on the filesystem still holds
the original bytes. -/
theorem normalize_wav_inplace_counterexample :
    (ensureAudioCompatibility ⟨some ("no match"), some [9]⟩
        ⟨[(⟨"d", "a", "wav"⟩, [1, 2, 3])], ["d"]⟩ ⟨"d", "a", "wav"⟩).1 = none
      ∧ (∀ e ∈ (ensureAudioCompatibility ⟨some ("no match"), some [9]⟩
          ⟨[(⟨"d", "a", "wav"⟩, [1, 2, 3])], ["d"]⟩ ⟨"d", "a", "wav"⟩).2.files,
          e.2 ≠ [1, 2, 3]) := by decide

/-- C2: when the conversion tool invocation fails, the call aborts with an
error and the file map is exactly what it was before the call: the
original input file still exists unmodified, with its original bytes, at
its original path (only the archive directory may have been created). -/
theorem normalize_convert_failure_moves_nothing (env : ConvEnv) (st : FsState)
    (p : JsPath) (origBytes : Bytes)
    (hni : inspectConforming p env.probe = false)
    (hconv : env.convert = none)
    (hlk : lookupFile st.files p = some origBytes) :
    (ensureAudioCompatibility env st p).1 = none
      ∧ (ensureAudioCompatibility env st p).2.files = st.files
      ∧ lookupFile (ensureAudioCompatibility env st p).2.files p = some origBytes := by
  by_cases hw : lowerStr p.extRaw = "wav"
  · cases hpo : env.probe with
    | none =>
      rw [ensure_probe_error env st p hw hpo]
      exact ⟨rfl, rfl, hlk⟩
    | some out =>
      have he := ensure_to_normalize env st p hni (fun _ h => by rw [hpo] at h; cases h)
      rw [he]
      obtain ⟨h1, h2⟩ := normalizeStage_convert_none env st p ⟨p.dir, p.base, "wav"⟩
        (p.dir ++ "/older") hconv
      exact ⟨h1, h2, by rw [h2]; exact hlk⟩
  · rw [ensure_nonwav_eq env st p hw]
    obtain ⟨h1, h2⟩ := normalizeStage_convert_none env st p ⟨p.dir, p.base, "wav"⟩
      (p.dir ++ "/older") hconv
    exact ⟨h1, h2, by rw [h2]; exact hlk⟩

theorem normalize_convert_failure_moves_nothing_witness :
    (ensureAudioCompatibility ⟨none, none⟩ ⟨[(⟨"x", "s", "mp3"⟩, [7])], ["x"]⟩
        ⟨"x", "s", "mp3"⟩).1 = none
      ∧ (ensureAudioCompatibility ⟨none, none⟩ ⟨[(⟨"x", "s", "mp3"⟩, [7])], ["x"]⟩
          ⟨"x", "s", "mp3"⟩).2.files = [(⟨"x", "s", "mp3"⟩, [7])]
      ∧ lookupFile (ensureAudioCompatibility ⟨none, none⟩
          ⟨[(⟨"x", "s", "mp3"⟩, [7])], ["x"]⟩ ⟨"x", "s", "mp3"⟩).2.files
          ⟨"x", "s", "mp3"⟩ = some [7] :=
  normalize_convert_failure_moves_nothing ⟨none, none⟩
    ⟨[(⟨"x", "s", "mp3"⟩, [7])], ["x"]⟩ ⟨"x", "s", "mp3"⟩ [7]
    (by decide) rfl (by decide)

/-- C3 (amended): when the probe invocation on a wav-extension file
throws, the error lands in the catch of `ensureAudioCompatibility`, which
returns an error with the filesystem untouched; the caller therefore skips
the file. The file is NOT normalized. -/
theorem probe_failure_returns_error (env : ConvEnv) (st : FsState) (p : JsPath)
    (hw : lowerStr p.extRaw = "wav") (hpr : env.probe = none) :
    ensureAudioCompatibility env st p = (none, st) :=
  ensure_probe_error env st p hw hpr

theorem probe_failure_returns_error_witness :
    ensureAudioCompatibility ⟨none, none⟩ ⟨[], []⟩ ⟨"e", "b", "wav"⟩
      = (none, ⟨[], []⟩) :=
  probe_failure_returns_error ⟨none, none⟩ ⟨[], []⟩ ⟨"e", "b", "wav"⟩ (by decide) rfl

/-- C3 fails as stated: on a wav file whose probe invocation fails, and
although the conversion tool would have succeeded (the oracle supplies
output bytes [5]), the call returns an error with the state unchanged
instead of proceeding to normalize the file. -/
theorem probe_failure_skips_counterexample :
    ensureAudioCompatibility ⟨none, some [5]⟩ ⟨[(⟨"d", "a", "wav"⟩, [1])], ["d"]⟩
        ⟨"d", "a", "wav"⟩
      = (none, ⟨[(⟨"d", "a", "wav"⟩, [1])], ["d"]⟩)
      ∧ (ensureAudioCompatibility ⟨none, some [5]⟩ ⟨[(⟨"d", "a", "wav"⟩, [1])], ["d"]⟩
          ⟨"d", "a", "wav"⟩).1 ≠ some ⟨"d", "a", "wav"⟩ := by decide

/-- C4: the call returns its input path unchanged (the Conforming
classification) precisely when the lower-cased container extension is wav
and the probe ran and its output passes the pcm_s16le / 16000 Hz / mono
substring tests; a Conforming input also leaves the filesystem untouched;
and a file with any other container extension is never Conforming and is
handled without consulting the probe at all (the result is the same for
every probe outcome). -/
theorem inspector_conforming_iff (env : ConvEnv) (st : FsState) (p : JsPath) :
    ((ensureAudioCompatibility env st p).1 = some p
        ↔ inspectConforming p env.probe = true)
      ∧ ((ensureAudioCompatibility env st p).1 = some p →
          ensureAudioCompatibility env st p = (some p, st))
      ∧ (lowerStr p.extRaw ≠ "wav" →
          inspectConforming p env.probe = false
            ∧ ∀ pr1 pr2 : Option String,
                ensureAudioCompatibility ⟨pr1, env.convert⟩ st p
                  = ensureAudioCompatibility ⟨pr2, env.convert⟩ st p) := by
  obtain ⟨hiff, himp⟩ := ensure_some_p_iff env st p
  refine ⟨hiff, himp, fun hw => ⟨?_, fun pr1 pr2 => ?_⟩⟩
  · rw [inspectConforming.eq_def, if_neg hw]
  · rw [ensure_nonwav_eq ⟨pr1, env.convert⟩ st p hw,
      ensure_nonwav_eq ⟨pr2, env.convert⟩ st p hw]
    rfl

theorem inspector_conforming_iff_witness :
    (ensureAudioCompatibility ⟨some ("Audio: pcm_s16le, 16000 Hz, mono"), none⟩
        ⟨[], []⟩ ⟨"dd", "f", "wav"⟩).1 = some ⟨"dd", "f", "wav"⟩ :=
  (inspector_conforming_iff ⟨some ("Audio: pcm_s16le, 16000 Hz, mono"), none⟩
      ⟨[], []⟩ ⟨"dd", "f", "wav"⟩).1.mpr (by decide)

/-! Lemmas about the orchestrator loop -/

theorem processFiles_append (l1 l2 : List (FileEnv × String)) :
    processFiles (l1 ++ l2) = processFiles l1 ++ processFiles l2 := by
  induction l1 with
  | nil => rfl
  | cons e rest ih =>
    obtain ⟨a, b⟩ := e
    rw [List.cons_append, processFiles, processFiles, ih, List.cons_append]

/-- C9: for a processed asset whose transcription succeeds with a
nonempty transcript but whose reference file does not exist, the loop body
still writes the transcript to the output file, takes the missing-reference
warning branch, never invokes the metrics tool, and the batch processes
the surrounding files exactly as it would have (the loop splits around the
asset, aborting nothing). -/
theorem missing_reference_keeps_transcript (env : FileEnv) (baseName : String)
    (t : String)
    (hconv : env.convOk = true)
    (ht : transcribeAudio env.events env.streamErrored = some t)
    (hne : t ≠ "")
    (href : env.refExists = false) :
    processOne env baseName
        = { FileOutcome.none0 with wroteOutput := some t, warnedMissingRef := true }
      ∧ (processOne env baseName).metricsInvoked = false
      ∧ ∀ pre post : List (FileEnv × String),
          processFiles (pre ++ (env, baseName) :: post)
            = processFiles pre ++ processOne env baseName :: processFiles post := by
  have h1 : processOne env baseName
      = { FileOutcome.none0 with wroteOutput := some t, warnedMissingRef := true } := by
    rw [processOne, if_neg (fun h => h hconv), ht]
    simp only []
    rw [if_neg hne, if_pos (fun h => by rw [href] at h; cases h)]
  refine ⟨h1, by rw [h1]; rfl, fun pre post => ?_⟩
  rw [processFiles_append]
  rfl

theorem missing_reference_keeps_transcript_witness :
    processOne ⟨true, [⟨[⟨false, [⟨("hi")⟩]⟩]⟩], false, false, some ("m")⟩ ("b")
      = { FileOutcome.none0 with wroteOutput := some ("hi"), warnedMissingRef := true } :=
  (missing_reference_keeps_transcript
    ⟨true, [⟨[⟨false, [⟨("hi")⟩]⟩]⟩], false, false, some ("m")⟩ ("b") ("hi")
    rfl (by decide) (by decide) rfl).1

theorem spaceJoined_all_empty (ts : List String) (h : ∀ t ∈ ts, t = "") :
    (spaceJoined ts).data = List.replicate ts.length (' ') := by
  induction ts with
  | nil => rfl
  | cons t rest ih =>
    have ht := h t (List.mem_cons_self t rest)
    subst ht
    rw [spaceJoined]
    have hd : ((("" : String) ++ " ") ++ spaceJoined rest).data
        = (' ') :: (spaceJoined rest).data := by
      rw [data_append, data_append]
      rfl
    rw [hd, ih (fun x hx => h x (List.mem_cons_of_mem _ hx))]
    rfl

theorem dropWhile_replicate_space (n : Nat) :
    List.dropWhile Char.isWhitespace (List.replicate n (' ')) = [] := by
  induction n with
  | zero => rfl
  | succ m ih =>
    rw [List.replicate_succ, List.dropWhile_cons]
    simp only [ih]
    rfl

theorem empty_append_str (s : String) : ("" : String) ++ s = s := rfl

theorem trimBoth_spaceJoined_empty (ts : List String) (h : ∀ t ∈ ts, t = "") :
    trimBoth (spaceJoined ts) = "" := by
  rw [trimBoth, spaceJoined_all_empty ts h, dropWhile_replicate_space]
  rfl

theorem finalTextsR_all_empty (rs : List TranscriptResult)
    (h : ∀ r ∈ rs, r.isPartial = false →
      ∃ rest, r.alternatives = (⟨""⟩ : TranscriptAlternative) :: rest) :
    ∀ t ∈ finalTextsR rs, t = "" := by
  intro t ht
  rw [finalTextsR, List.mem_filterMap] at ht
  obtain ⟨r, hr, hf⟩ := ht
  cases hp : r.isPartial with
  | true => rw [if_pos hp] at hf; cases hf
  | false =>
    obtain ⟨rest, halt⟩ := h r hr hp
    rw [if_neg (by rw [hp]; exact Bool.false_ne_true), halt] at hf
    exact (Option.some.inj hf).symm

/-- C10: a stream that completes without error but whose final-tagged
results all carry empty text makes the driver return the empty string, and
the orchestrator then behaves exactly as it does for a failed
transcription (stream error): no output transcript is written, the metrics
step is skipped, and only the transcription-failure message is logged. -/
theorem empty_transcript_behaves_as_failure (env : FileEnv) (baseName : String)
    (hconv : env.convOk = true)
    (herr : env.streamErrored = false)
    (hfin : ∀ r ∈ (env.events.map TranscriptEvent.results).flatten,
      r.isPartial = false →
        ∃ rest, r.alternatives = (⟨""⟩ : TranscriptAlternative) :: rest) :
    transcribeAudio env.events false = some ("")
      ∧ processOne env baseName
          = { FileOutcome.none0 with loggedTranscribeFailure := true }
      ∧ processOne env baseName = processOne { env with streamErrored := true } baseName
      ∧ (processOne env baseName).wroteOutput = none
      ∧ (processOne env baseName).metricsInvoked = false := by
  have halts : ∀ r ∈ (env.events.map TranscriptEvent.results).flatten,
      r.isPartial = false → r.alternatives ≠ [] := by
    intro r hr hp
    obtain ⟨rest, halt⟩ := hfin r hr hp
    rw [halt]
    exact List.cons_ne_nil _ _
  have h0 : transcribeAudio env.events false = some ("") := by
    rw [transcribeAudio]
    simp only [if_neg (Bool.false_ne_true)]
    rw [foldl_accumStep _ halts ("")]
    simp only []
    rw [empty_append_str, trimBoth_spaceJoined_empty _ (finalTextsR_all_empty _ hfin)]
  have h2 : processOne env baseName
      = { FileOutcome.none0 with loggedTranscribeFailure := true } := by
    rw [processOne, if_neg (fun h => h hconv), herr, h0]
    simp only []
    rw [if_pos trivial]
  have h3 : processOne { env with streamErrored := true } baseName
      = { FileOutcome.none0 with loggedTranscribeFailure := true } := by
    rw [processOne, if_neg (fun h => h hconv)]
    rfl
  exact ⟨h0, h2, h2.trans h3.symm, by rw [h2]; rfl, by rw [h2]; rfl⟩

theorem empty_transcript_behaves_as_failure_witness :
    processOne ⟨true, [⟨[⟨false, [⟨("")⟩]⟩]⟩], false, true, some ("m")⟩ ("c")
      = { FileOutcome.none0 with loggedTranscribeFailure := true } :=
  (empty_transcript_behaves_as_failure
    ⟨true, [⟨[⟨false, [⟨("")⟩]⟩]⟩], false, true, some ("m")⟩ ("c")
    rfl rfl (fun r hr _hp => by
      have hre : r = ⟨false, [⟨("")⟩]⟩ := by simpa using hr
      rw [hre]
      exact ⟨[], rfl⟩)).2.1

/-- C8 (amended): the exit code is always 0 or 1; it is 0 exactly when
both directory arguments are present AND nonempty (JS truthiness also
rejects an empty-string argument) and both resolved directories exist; on
exit 0 every supported file is processed (the per-file outcomes are the
full list); and per-file outcomes never influence the exit code. -/
theorem cli_exit_codes (cli : CliEnv) (a r : Option String)
    (envs envs2 : List (FileEnv × String)) :
    ((main cli a r envs).1 = 0 ∨ (main cli a r envs).1 = 1)
      ∧ ((main cli a r envs).1 = 0 ↔
          (∃ sa, a = some sa ∧ sa ≠ ""
            ∧ ∃ sr, r = some sr ∧ sr ≠ ""
            ∧ cli.dirExists (cli.resolve sa) = true
            ∧ cli.dirExists (cli.resolve sr) = true))
      ∧ ((main cli a r envs).1 = 0 → (main cli a r envs).2 = processFiles envs)
      ∧ (main cli a r envs).1 = (main cli a r envs2).1 := by
  cases a with
  | none =>
    exact ⟨Or.inr rfl,
      ⟨fun h => absurd h one_ne_zero, fun ⟨sa, hsa, _⟩ => Option.noConfusion hsa⟩,
      fun h => absurd h one_ne_zero, rfl⟩
  | some sa =>
    cases r with
    | none =>
      exact ⟨Or.inr rfl,
        ⟨fun h => absurd h one_ne_zero,
          fun ⟨sa2, hsa, hne, sr, hsr, _⟩ => Option.noConfusion hsr⟩,
        fun h => absurd h one_ne_zero, rfl⟩
    | some sr =>
      by_cases h1 : sa = "" ∨ sr = ""
      · have hm : ∀ fe : List (FileEnv × String), main cli (some sa) (some sr) fe = (1, []) := by
          intro fe
          rw [main, if_pos h1]
        rw [hm envs, hm envs2]
        refine ⟨Or.inr rfl, ⟨fun h => absurd h one_ne_zero, ?_⟩,
          fun h => absurd h one_ne_zero, rfl⟩
        rintro ⟨sa2, hsa, hnesa, sr2, hsr, hnesr, _, _⟩
        obtain rfl := Option.some.inj hsa
        obtain rfl := Option.some.inj hsr
        rcases h1 with h1 | h1
        · exact (hnesa h1).elim
        · exact (hnesr h1).elim
      · have hne : ¬ (sa = "" ∨ sr = "") := h1
        by_cases h2 : ¬ cli.dirExists (cli.resolve sa) = true
            ∨ ¬ cli.dirExists (cli.resolve sr) = true
        · have hm : ∀ fe : List (FileEnv × String),
              main cli (some sa) (some sr) fe = (1, []) := by
            intro fe
            rw [main, if_neg h1, if_pos h2]
          rw [hm envs, hm envs2]
          refine ⟨Or.inr rfl, ⟨fun h => absurd h one_ne_zero, ?_⟩,
            fun h => absurd h one_ne_zero, rfl⟩
          rintro ⟨sa2, hsa, hnesa, sr2, hsr, hnesr, hda, hdr⟩
          obtain rfl := Option.some.inj hsa
          obtain rfl := Option.some.inj hsr
          rcases h2 with h2 | h2
          · exact (h2 hda).elim
          · exact (h2 hdr).elim
        · have hm : ∀ fe : List (FileEnv × String),
              main cli (some sa) (some sr) fe = (0, processFiles fe) := by
            intro fe
            rw [main, if_neg h1, if_neg h2]
          rw [hm envs, hm envs2]
          rcases not_or.mp h1 with ⟨hnesa, hnesr⟩
          rcases not_or.mp h2 with ⟨hda, hdr⟩
          exact ⟨Or.inl rfl,
            ⟨fun _ => ⟨sa, rfl, hnesa, sr, rfl, hnesr, not_not.mp hda, not_not.mp hdr⟩,
              fun _ => rfl⟩,
            fun _ => rfl, rfl⟩

theorem cli_exit_codes_witness :
    (main ⟨fun _ => true, fun s => s⟩ (some ("aa")) (some ("bb")) []).1 = 0 :=
  (cli_exit_codes ⟨fun _ => true, fun s => s⟩ (some ("aa")) (some ("bb")) [] []).2.1.mpr
    ⟨"aa", rfl, by decide, "bb", rfl, by decide, rfl, rfl⟩

/-- C8 fails as stated: with an empty string as the audio-directory
argument (an argument that is present, not missing) and every directory
existing, the process exits with code 1, although the claim requires it to
proceed and exit 0. -/
theorem empty_arg_exit_counterexample :
    (main ⟨fun _ => true, fun s => s⟩ (some ("")) (some ("x")) []).1 = 1
      ∧ ((fun (_ : String) => true) ((fun (s : String) => s) "") = true)
      ∧ (1 : Nat) ≠ 0 :=
  ⟨rfl, rfl, one_ne_zero⟩


end AudioWer
